import Mathlib

/-!
Shallow embedding of `MonacoSemanticHighlightingService`
(src/packages/monaco/src/browser/monaco-semantic-highlighting-service.ts)
and proofs of the specification claims about it.

The embedding keeps the source's names where Lean allows it.  TypeScript
line numbers and decoration-handle counters are modelled as `Nat`; the
JavaScript `Map<string, V>` objects are modelled as association lists with
`mapGet` / `mapSet` / `mapDelete` mirroring `get` / `set` / `delete`.
-/

/-- A position in a document, as in the LSP / Theia `Position` value used by
`SemanticHighlightingRange`: a zero-based line and character. -/
structure Position where
  line : Nat
  character : Nat
deriving DecidableEq, Repr

/-- The `SemanticHighlightingRange` value received by `decorate`: a start and
end position plus the ordered scope classifications.  The TypeScript field
`end` is a Lean keyword, so it is named `endPos` here. -/
structure SemanticHighlightingRange where
  start : Position
  endPos : Position
  scopes : List String
deriving DecidableEq, Repr

/-- The `mergeRanges` method.  The source builds the JavaScript `Set`
`affectedLines` from the start lines of `newRanges`, then returns
`oldRanges.filter(r => !affectedLines.has(r.start.line) && r.start.line < lineCount).concat(newRanges)`.
The `Set` is modelled by the underlying list, whose `contains` has the same
membership semantics as `Set.has`.  The `model` argument of the source is
represented by the only datum read from it, `lineCount = model.getLineCount()`. -/
def mergeRanges (lineCount : Nat)
    (oldRanges newRanges : List SemanticHighlightingRange) :
    List SemanticHighlightingRange :=
  let affectedLines := newRanges.map (fun r => r.start.line)
  oldRanges.filter
    (fun r => !(affectedLines.contains r.start.line) && decide (r.start.line < lineCount))
    ++ newRanges

/-- The `EditorDecorationOptions` value built by `toOptions`: either carries
an `inlineClassName` or is the empty object literal. -/
structure EditorDecorationOptions where
  inlineClassName : Option String := none
deriving DecidableEq, Repr

/-- The `toOptions` method.  The source loop `for (const scope of scopes)`
returns on its first iteration, so only the head of `scopes` is ever
consulted; an empty `scopes` falls through to `return` of the empty object.
The theme lookup `tokenTheme().match(undefined, scope)` is the abstract
function `tmMatch` (returning the token metadata word) and
`TokenMetadata.getClassNameFromMetadata` is the abstract `getClassName`. -/
def toOptions (tmMatch : String → Nat) (getClassName : Nat → String) :
    List String → EditorDecorationOptions
  | [] => {}
  | scope :: _ => { inlineClassName := some (getClassName (tmMatch scope)) }

/-! ## Claims about the pure range-merge engine -/

/-- Helper: membership in the affected-lines list is membership of a start
line of some new range. -/
theorem affected_contains_iff (newRanges : List SemanticHighlightingRange) (l : Nat) :
    (newRanges.map (fun r => r.start.line)).contains l = true ↔
      ∃ s ∈ newRanges, s.start.line = l := by
  simp [List.contains_iff_exists_mem_beq]

/-- C1: `mergeRanges` is exactly the bounds-and-affected-line filter of
`oldRanges` (in original order) followed by all of `newRanges`. -/
theorem mergeRanges_characterization (lineCount : Nat)
    (oldRanges newRanges : List SemanticHighlightingRange) :
    mergeRanges lineCount oldRanges newRanges =
      oldRanges.filter
        (fun r => decide ((∀ s ∈ newRanges, s.start.line ≠ r.start.line) ∧
          r.start.line < lineCount))
        ++ newRanges := by
  simp only [mergeRanges]
  congr 1
  apply List.filter_congr
  intro r _
  by_cases hmem : ∃ s ∈ newRanges, s.start.line = r.start.line
  · have hc : (newRanges.map (fun r => r.start.line)).contains r.start.line = true :=
      (affected_contains_iff newRanges r.start.line).mpr hmem
    simp only [hc]
    obtain ⟨s, hs, hl⟩ := hmem
    simp
    intro h
    exact absurd hl (h s hs)
  · have hc : ¬ (newRanges.map (fun r => r.start.line)).contains r.start.line = true := by
      intro h
      exact hmem ((affected_contains_iff newRanges r.start.line).mp h)
    simp only [Bool.not_eq_true] at hc
    simp only [hc]
    simp
    intro _
    intro s hs hl
    exact hmem ⟨s, hs, hl⟩

/-- C2: if some new range starts at line `L`, every range of the merged
result that starts at line `L` is one of the new ranges — the retained old
ranges never contribute a range at an affected line. -/
theorem mergeRanges_new_wins (lineCount L : Nat)
    (oldRanges newRanges : List SemanticHighlightingRange)
    (s : SemanticHighlightingRange) (hs : s ∈ newRanges) (hL : s.start.line = L) :
    ∀ r ∈ mergeRanges lineCount oldRanges newRanges,
      r.start.line = L → r ∈ newRanges := by
  intro r hr hrL
  simp only [mergeRanges] at hr
  simp only [List.mem_append] at hr
  cases hr with
  | inl hfilt =>
    have hprop := List.of_mem_filter hfilt
    simp only [Bool.and_eq_true, Bool.not_eq_true'] at hprop
    exfalso
    have hc : (newRanges.map (fun t => t.start.line)).contains r.start.line = true :=
      (affected_contains_iff newRanges r.start.line).mpr ⟨s, hs, by rw [hL, hrL]⟩
    rw [hprop.1] at hc
    exact Bool.false_ne_true hc
  | inr hnew => exact hnew

/-- C2 witness at concrete inputs: the new range at line 2 is in the merge
result, and the theorem applied to it places it among the new ranges. -/
theorem mergeRanges_new_wins_witness :
    (⟨⟨2, 0⟩, ⟨2, 3⟩, ["string"]⟩ : SemanticHighlightingRange) ∈
      mergeRanges 10 [⟨⟨2, 0⟩, ⟨2, 5⟩, ["keyword"]⟩] [⟨⟨2, 0⟩, ⟨2, 3⟩, ["string"]⟩] ∧
    (⟨⟨2, 0⟩, ⟨2, 3⟩, ["string"]⟩ : SemanticHighlightingRange) ∈
      [(⟨⟨2, 0⟩, ⟨2, 3⟩, ["string"]⟩ : SemanticHighlightingRange)] :=
  ⟨by decide,
   mergeRanges_new_wins 10 2 [⟨⟨2, 0⟩, ⟨2, 5⟩, ["keyword"]⟩]
     [⟨⟨2, 0⟩, ⟨2, 3⟩, ["string"]⟩] ⟨⟨2, 0⟩, ⟨2, 3⟩, ["string"]⟩ (by decide) rfl
     ⟨⟨2, 0⟩, ⟨2, 3⟩, ["string"]⟩ (by decide) rfl⟩

/-- C4 counterexample: with `lineCount = 0` and a non-empty `newRanges`,
the merge result is not empty — the code appends `newRanges` unconditionally. -/
theorem mergeRanges_zero_linecount_counterexample :
    mergeRanges 0 [] [⟨⟨0, 0⟩, ⟨0, 1⟩, ["keyword"]⟩] ≠ [] := by
  decide

/-- C4 amended: with `lineCount = 0` every old range is dropped (no
zero-based line is below 0) but `newRanges` is returned unchanged; the
result is empty exactly when `newRanges` is. -/
theorem mergeRanges_zero_linecount (oldRanges newRanges : List SemanticHighlightingRange) :
    mergeRanges 0 oldRanges newRanges = newRanges := by
  simp only [mergeRanges]
  have h : ∀ r ∈ oldRanges,
      (!((newRanges.map (fun t => t.start.line)).contains r.start.line)
        && decide (r.start.line < 0)) = false := by
    intro r _
    simp
  rw [List.filter_eq_nil_iff.mpr (fun r hr => by rw [h r hr]; exact Bool.false_ne_true)]
  simp

/-- C7: merging an empty batch is the pure bounds-filter garbage-collection
pass over the old ranges — no range is added and every retained range is
kept unmodified. -/
theorem mergeRanges_empty_new (lineCount : Nat)
    (oldRanges : List SemanticHighlightingRange) :
    mergeRanges lineCount oldRanges [] =
      oldRanges.filter (fun r => decide (r.start.line < lineCount)) := by
  simp only [mergeRanges]
  simp

/-- C10: the new batch is always a suffix of the merge result — every new
range appears unmodified in the result regardless of the line count, the
bounds filter being applied only to the old ranges. -/
theorem mergeRanges_new_suffix (lineCount : Nat)
    (oldRanges newRanges : List SemanticHighlightingRange) :
    newRanges <:+ mergeRanges lineCount oldRanges newRanges := by
  simp only [mergeRanges]
  exact ⟨_, rfl⟩

/-! ## Claim about style resolution -/

/-- C8: the style descriptor computed by `toOptions` depends only on the
head of the scopes sequence, resolved through the theme match function and
the metadata-to-class-name conversion; an empty scopes sequence yields the
empty descriptor. -/
theorem toOptions_head (tmMatch : String → Nat) (getClassName : Nat → String)
    (scopes : List String) :
    toOptions tmMatch getClassName scopes =
      { inlineClassName := scopes.head?.map (fun s => getClassName (tmMatch s)) } := by
  cases scopes <;> rfl

/-! ## The stateful service: editors, maps, and the decoration life cycle -/

/-- Lookup in a JavaScript `Map` modelled as an association list:
`Map.get` returns the value at the key, if present. -/
def mapGet {V : Type} : List (String × V) → String → Option V
  | [], _ => none
  | (k', v) :: rest, k => if k' = k then some v else mapGet rest k

/-- Update in a JavaScript `Map`: `Map.set` replaces the value at an
existing key in place and otherwise appends a fresh entry. -/
def mapSet {V : Type} : List (String × V) → String → V → List (String × V)
  | [], k, v => [(k, v)]
  | (k', v') :: rest, k, v =>
      if k' = k then (k, v) :: rest else (k', v') :: mapSet rest k v

/-- Removal from a JavaScript `Map`: `Map.delete` drops the entry at the
key, if present. -/
def mapDelete {V : Type} : List (String × V) → String → List (String × V)
  | [], _ => []
  | (k', v') :: rest, k =>
      if k' = k then mapDelete rest k else (k', v') :: mapDelete rest k

/-- The `Range.create(start, end)` value placed in an `EditorDecoration`.
The TypeScript field `end` is a Lean keyword, so it is named `endPos`. -/
structure TextRange where
  start : Position
  endPos : Position
deriving DecidableEq, Repr

/-- The `EditorDecoration` value built by `toDecoration`: the range together
with its resolved options. -/
structure EditorDecoration where
  range : TextRange
  options : EditorDecorationOptions
deriving DecidableEq, Repr

/-- The `toDecoration` method: pairs `Range.create(start, end)` with the
options resolved from the range's scopes. -/
def toDecoration (tmMatch : String → Nat) (getClassName : Nat → String)
    (range : SemanticHighlightingRange) : EditorDecoration :=
  { range := { start := range.start, endPos := range.endPos },
    options := toOptions tmMatch getClassName range.scopes }

/-- The cached `DecorationWithRanges` tuple: the decoration handles returned
by the editor and the raw highlighting ranges.  Monaco's string decoration
ids are modelled as opaque `Nat` handles. -/
structure DecorationWithRanges where
  decorations : List Nat
  ranges : List SemanticHighlightingRange
deriving DecidableEq, Repr

/-- The `DecorationWithRanges.EMPTY` constant. -/
def DecorationWithRanges.EMPTY : DecorationWithRanges :=
  { decorations := [], ranges := [] }

/-- One recorded `deltaDecorations` invocation on an editor: the decorations
asked to be added and the handles asked to be removed.  The log exists so
that claims about how often the service calls the view surface are statable. -/
structure DeltaCall where
  newDecorations : List EditorDecoration
  oldDecorations : List Nat
deriving DecidableEq, Repr

/-- The state of one open editor as the service observes it: whether it is a
`MonacoEditor` (decoration-capable), its model's line count, the fresh-handle
counter, the currently applied decoration handles, the log of
`deltaDecorations` calls it received, and the keys whose
`deleteDecorations` callback is registered on its `onDispose` event. -/
structure EditorInfo where
  isMonaco : Bool
  lineCount : Nat
  nextHandle : Nat
  activeDecorations : List Nat
  callLog : List DeltaCall
  closeListeners : List String
deriving DecidableEq, Repr

/-- Modelled from the spec: the `MonacoEditor.deltaDecorations` method is
not among the provided sources, so its contract is taken from the spec's
view-surface interface — atomically remove the old handles, add one
decoration per new entry, and return exactly one fresh handle per added
decoration, positionally matching the added decorations. -/
def deltaDecorations (e : EditorInfo) (newDecorations : List EditorDecoration)
    (oldDecorations : List Nat) : EditorInfo × List Nat :=
  let newHandles := (List.range newDecorations.length).map (fun i => e.nextHandle + i)
  ({ e with
      nextHandle := e.nextHandle + newDecorations.length,
      activeDecorations :=
        e.activeDecorations.filter (fun h => !(oldDecorations.contains h)) ++ newHandles,
      callLog := e.callLog ++ [{ newDecorations := newDecorations,
                                 oldDecorations := oldDecorations }] },
   newHandles)

/-- The whole observable state: the open editors keyed by URI string
(the `EditorManager.getByUri` view), and the service's two fields
`decorations` and `toDisposeOnEditorClose`.  A subscription entry stores the
URI its `deleteDecorations` closure captured (always the entry's own key). -/
structure World where
  editors : List (String × EditorInfo)
  decorations : List (String × DecorationWithRanges)
  toDisposeOnEditorClose : List (String × String)
deriving DecidableEq, Repr

/-- The `decorate(uri, ranges)` method.  It returns the world unchanged when
`editorManager.getByUri` finds no widget or the widget's editor is not a
`MonacoEditor`; otherwise it lazily registers the `onDispose` callback,
merges the cached ranges with the batch, exchanges the old decoration
handles for new ones via `deltaDecorations`, and caches the new state. -/
def decorate (tmMatch : String → Nat) (getClassName : Nat → String)
    (w : World) (uri : String) (ranges : List SemanticHighlightingRange) : World :=
  match mapGet w.editors uri with
  | none => w
  | some editor =>
    if !editor.isMonaco then w
    else
      let reg :=
        if (mapGet w.toDisposeOnEditorClose uri).isSome then
          (w.editors, w.toDisposeOnEditorClose, editor)
        else
          let editorReg := { editor with closeListeners := editor.closeListeners ++ [uri] }
          (mapSet w.editors uri editorReg,
           mapSet w.toDisposeOnEditorClose uri uri,
           editorReg)
      let oldState := (mapGet w.decorations uri).getD DecorationWithRanges.EMPTY
      let rangesToCache := mergeRanges reg.2.2.lineCount oldState.ranges ranges
      let newDecorations := rangesToCache.map (toDecoration tmMatch getClassName)
      let applied := deltaDecorations reg.2.2 newDecorations oldState.decorations
      { editors := mapSet reg.1 uri applied.1,
        decorations := mapSet w.decorations uri
          { ranges := rangesToCache, decorations := applied.2 },
        toDisposeOnEditorClose := reg.2.1 }

/-- The `deleteDecorations(uri, editor)` method, as run when the editor's
close notification delivers it.  If a cached entry exists it clears that
entry's decorations on the captured editor and deletes the entry; then it
disposes the stored close subscription, if any (unregistering the
`onDispose` listener from the captured editor), and deletes the map entry. -/
def deleteDecorations (w : World) (uri : String) : World :=
  let cleared :=
    match mapGet w.decorations uri with
    | none => w
    | some decorationWithRanges =>
      let editorsAfter :=
        match mapGet w.editors uri with
        | none => w.editors
        | some e =>
          mapSet w.editors uri
            (deltaDecorations e [] decorationWithRanges.decorations).1
      { w with editors := editorsAfter,
               decorations := mapDelete w.decorations uri }
  let editorsAfterCancel :=
    match mapGet cleared.toDisposeOnEditorClose uri with
    | none => cleared.editors
    | some capturedUri =>
      match mapGet cleared.editors capturedUri with
      | none => cleared.editors
      | some e =>
        mapSet cleared.editors capturedUri
          { e with closeListeners := e.closeListeners.filter (fun k => !(k = uri : Bool)) }
  { editors := editorsAfterCancel,
    decorations := cleared.decorations,
    toDisposeOnEditorClose := mapDelete cleared.toDisposeOnEditorClose uri }

/-- Modelled from the spec: the editor's close-notification channel
(`TextEditor.onDispose`) is not among the provided sources; per the spec it
delivers the registered callback, which the service registered as
`() => this.deleteDecorations(key, editor)`. -/
def notifyClose (w : World) (uri : String) : World :=
  deleteDecorations w uri

/-- Modelled from the spec: the `Disposable` returned by
`editor.onDispose(...)` is defined outside the provided sources; per the
spec a close subscription is a cancellable registration, so disposing it
unregisters the listener from that editor's close event and touches nothing
else.  This is the step `dispose()` performs on one stored value of
`toDisposeOnEditorClose`. -/
def disposeSubscription (acc : World) (entry : String × String) : World :=
  match mapGet acc.editors entry.2 with
  | none => acc
  | some e =>
    let cancelled :=
      { e with closeListeners :=
          e.closeListeners.filter (fun k => !(k = entry.2 : Bool)) }
    { acc with editors := mapSet acc.editors entry.2 cancelled }

/-- The `dispose()` method: iterate the values of `toDisposeOnEditorClose`
and dispose each stored subscription. -/
def dispose (w : World) : World :=
  w.toDisposeOnEditorClose.foldl disposeSubscription w

/-! ## Association-list map lemmas -/

/-- Lookup after `mapSet` at the written key finds the written value. -/
theorem mapGet_mapSet_self {V : Type} (m : List (String × V)) (k : String) (v : V) :
    mapGet (mapSet m k v) k = some v := by
  induction m with
  | nil => simp [mapGet, mapSet]
  | cons p rest ih =>
    by_cases h : p.1 = k
    · simp [mapGet, mapSet, h]
    · simp [mapGet, mapSet, h, ih]

/-- Lookup after `mapSet` at another key is unchanged. -/
theorem mapGet_mapSet_ne {V : Type} (m : List (String × V)) (k k' : String) (v : V)
    (h : k ≠ k') : mapGet (mapSet m k v) k' = mapGet m k' := by
  induction m with
  | nil => simp [mapGet, mapSet, h]
  | cons p rest ih =>
    by_cases hp : p.1 = k
    · simp [mapGet, mapSet, hp, h]
    · simp only [mapSet, hp, if_false]
      by_cases hp' : p.1 = k'
      · simp [mapGet, hp']
      · simp [mapGet, hp', ih]

/-- Lookup after `mapDelete` at the deleted key is `none`. -/
theorem mapGet_mapDelete_self {V : Type} (m : List (String × V)) (k : String) :
    mapGet (mapDelete m k) k = none := by
  induction m with
  | nil => simp [mapGet, mapDelete]
  | cons p rest ih =>
    by_cases h : p.1 = k
    · simp [mapDelete, h, ih]
    · simp [mapGet, mapDelete, h, ih]

/-- Deleting an absent key is the identity. -/
theorem mapDelete_of_get_none {V : Type} (m : List (String × V)) (k : String)
    (h : mapGet m k = none) : mapDelete m k = m := by
  induction m with
  | nil => simp [mapDelete]
  | cons p rest ih =>
    by_cases hp : p.1 = k
    · simp [mapGet, hp] at h
    · simp only [mapGet, hp, if_false] at h
      simp [mapDelete, hp, ih h]

/-- Merging into an empty cache keeps exactly the new batch. -/
theorem mergeRanges_nil_old (lineCount : Nat) (newRanges : List SemanticHighlightingRange) :
    mergeRanges lineCount [] newRanges = newRanges := by
  simp [mergeRanges]

/-- A self-removal filter empties a handle list: `deltaDecorations` asked to
remove exactly the currently active handles leaves none of them active. -/
theorem filter_not_contains_self (l : List Nat) :
    l.filter (fun h => !(l.contains h)) = [] := by
  apply List.filter_eq_nil_iff.mpr
  intro a ha
  simp [ha]

/-- A world holding a single freshly opened Monaco editor for `uri` with the
given line count, before any update has arrived. -/
def initialWorld (uri : String) (lineCount : Nat) : World :=
  { editors := [(uri, { isMonaco := true, lineCount := lineCount, nextHandle := 0,
                        activeDecorations := [], callLog := [], closeListeners := [] })],
    decorations := [],
    toDisposeOnEditorClose := [] }

/-- The number of decoration-clearing calls (calls asked to add no
decoration) the editor at `uri` has received. -/
def clearCallCount (w : World) (uri : String) : Nat :=
  match mapGet w.editors uri with
  | none => 0
  | some e => (e.callLog.filter (fun c => c.newDecorations.isEmpty)).length

/-! ## Claims about the stateful life cycle -/

/-- C9: an update for a document with no active view, or whose view is not
a `MonacoEditor`, is a complete no-op: the world — cache map, subscription
map, and every editor's call log — is returned unchanged. -/
theorem decorate_no_view_noop (tmMatch : String → Nat) (getClassName : Nat → String)
    (w : World) (uri : String) (ranges : List SemanticHighlightingRange)
    (h : mapGet w.editors uri = none ∨
      ∃ e, mapGet w.editors uri = some e ∧ e.isMonaco = false) :
    decorate tmMatch getClassName w uri ranges = w := by
  cases h with
  | inl hn => simp [decorate, hn]
  | inr he =>
    obtain ⟨e, hget, hm⟩ := he
    simp [decorate, hget, hm]

/-- C9 witness: an empty world has no editor, so an update changes nothing. -/
theorem decorate_no_view_noop_witness :
    decorate (fun _ => 0) (fun _ => "c") ⟨[], [], []⟩ "a"
      [⟨⟨2, 0⟩, ⟨2, 5⟩, ["keyword"]⟩] = ⟨[], [], []⟩ :=
  decorate_no_view_noop (fun _ => 0) (fun _ => "c") ⟨[], [], []⟩ "a"
    [⟨⟨2, 0⟩, ⟨2, 5⟩, ["keyword"]⟩] (Or.inl rfl)

/-- C5: after an update that reaches the apply step (the document has a
decoration-capable view), the cached entry holds exactly one decoration
handle per cached range. -/
theorem decorate_handle_parity (tmMatch : String → Nat) (getClassName : Nat → String)
    (w : World) (uri : String) (ranges : List SemanticHighlightingRange)
    (e : EditorInfo) (hget : mapGet w.editors uri = some e) (hm : e.isMonaco = true) :
    ∃ entry, mapGet (decorate tmMatch getClassName w uri ranges).decorations uri
        = some entry ∧
      entry.decorations.length = entry.ranges.length := by
  by_cases hreg : (mapGet w.toDisposeOnEditorClose uri).isSome
  · simp only [decorate, hget, hm, hreg, Bool.not_true, Bool.false_eq_true,
      if_false, if_true]
    refine ⟨_, mapGet_mapSet_self _ _ _, ?_⟩
    simp [deltaDecorations]
  · have hreg' : (mapGet w.toDisposeOnEditorClose uri).isSome = false := by
      simpa using hreg
    simp only [decorate, hget, hm, hreg', Bool.not_true, Bool.false_eq_true,
      if_false, if_true]
    refine ⟨_, mapGet_mapSet_self _ _ _, ?_⟩
    simp [deltaDecorations]

/-- C5 witness at a concrete world and update. -/
theorem decorate_handle_parity_witness :
    ∃ entry,
      mapGet (decorate (fun _ => 0) (fun _ => "c") (initialWorld "a" 10) "a"
          [⟨⟨2, 0⟩, ⟨2, 5⟩, ["keyword"]⟩]).decorations "a" = some entry ∧
      entry.decorations.length = entry.ranges.length :=
  decorate_handle_parity (fun _ => 0) (fun _ => "c") (initialWorld "a" 10) "a"
    [⟨⟨2, 0⟩, ⟨2, 5⟩, ["keyword"]⟩]
    { isMonaco := true, lineCount := 10, nextHandle := 0,
      activeDecorations := [], callLog := [], closeListeners := [] }
    (by decide) rfl

/-- Everything an editor carries except its registered close listeners —
the projection `dispose()` leaves untouched. -/
def stripListeners (e : EditorInfo) : Bool × Nat × Nat × List Nat × List DeltaCall :=
  (e.isMonaco, e.lineCount, e.nextHandle, e.activeDecorations, e.callLog)

/-- Disposing one subscription changes neither service map and, on every
editor, only the close-listener registrations. -/
theorem disposeSubscription_strip (acc : World) (p : String × String) :
    (disposeSubscription acc p).decorations = acc.decorations ∧
    (disposeSubscription acc p).toDisposeOnEditorClose = acc.toDisposeOnEditorClose ∧
    ∀ u, (mapGet (disposeSubscription acc p).editors u).map stripListeners
        = (mapGet acc.editors u).map stripListeners := by
  unfold disposeSubscription
  cases hget : mapGet acc.editors p.2 with
  | none => exact ⟨rfl, rfl, fun _ => rfl⟩
  | some e =>
    refine ⟨rfl, rfl, fun u => ?_⟩
    by_cases hu : p.2 = u
    · subst hu
      rw [mapGet_mapSet_self, hget]
      rfl
    · rw [mapGet_mapSet_ne _ _ _ _ hu]

/-- Folding subscription disposal over any entry list changes neither
service map and, on every editor, only the close-listener registrations. -/
theorem disposeFold_strip (l : List (String × String)) (acc : World) :
    ((l.foldl disposeSubscription acc).decorations = acc.decorations ∧
     (l.foldl disposeSubscription acc).toDisposeOnEditorClose
        = acc.toDisposeOnEditorClose ∧
     ∀ u, (mapGet (l.foldl disposeSubscription acc).editors u).map stripListeners
        = (mapGet acc.editors u).map stripListeners) := by
  induction l generalizing acc with
  | nil => exact ⟨rfl, rfl, fun _ => rfl⟩
  | cons p rest ih =>
    obtain ⟨hd, ht, he⟩ := ih (disposeSubscription acc p)
    obtain ⟨hd', ht', he'⟩ := disposeSubscription_strip acc p
    exact ⟨by rw [List.foldl_cons, hd, hd'],
           by rw [List.foldl_cons, ht, ht'],
           fun u => by rw [List.foldl_cons, he u, he' u]⟩

/-- C3 counterexample: in a world with one tracked document, `dispose()`
does not remove the cached entry — the cache is not left empty. -/
theorem dispose_not_absent_counterexample :
    (mapGet (dispose (decorate (fun _ => 0) (fun _ => "c") (initialWorld "a" 10) "a"
        [⟨⟨2, 0⟩, ⟨2, 5⟩, ["keyword"]⟩])).decorations "a").isSome = true := by
  decide

/-- C3 amended: `dispose()` only disposes the stored close subscriptions,
which can affect nothing but the editors' registered close listeners: the
decorations cache and the subscription map are unchanged, and every editor
keeps its applied decorations and its call log — no decoration is cleared
and no cache entry is removed. -/
theorem dispose_strip (w : World) :
    (dispose w).decorations = w.decorations ∧
    (dispose w).toDisposeOnEditorClose = w.toDisposeOnEditorClose ∧
    ∀ u, (mapGet (dispose w).editors u).map stripListeners
        = (mapGet w.editors u).map stripListeners :=
  disposeFold_strip w.toDisposeOnEditorClose w

/-- C6: along the trace open, update, update, close, duplicate close for one
document (non-trivial updates), no decoration-clearing call happens before
the first close, exactly one has happened after it, the cache entry is
absent after it, and the duplicate close notification leaves the world
exactly as it was — a complete no-op on decorations and cache state. -/
theorem lifecycle_exactly_once (tmMatch : String → Nat) (getClassName : Nat → String)
    (uri : String) (lineCount : Nat) (r1 r2 : List SemanticHighlightingRange)
    (h1 : r1 ≠ []) (h2 : r2 ≠ []) :
    clearCallCount (decorate tmMatch getClassName
      (decorate tmMatch getClassName (initialWorld uri lineCount) uri r1)
      uri r2) uri = 0 ∧
    clearCallCount (notifyClose (decorate tmMatch getClassName
      (decorate tmMatch getClassName (initialWorld uri lineCount) uri r1)
      uri r2) uri) uri = 1 ∧
    mapGet (notifyClose (decorate tmMatch getClassName
      (decorate tmMatch getClassName (initialWorld uri lineCount) uri r1)
      uri r2) uri).decorations uri = none ∧
    notifyClose (notifyClose (decorate tmMatch getClassName
      (decorate tmMatch getClassName (initialWorld uri lineCount) uri r1)
      uri r2) uri) uri =
      notifyClose (decorate tmMatch getClassName
        (decorate tmMatch getClassName (initialWorld uri lineCount) uri r1)
        uri r2) uri := by
  obtain ⟨a1, l1, rfl⟩ := List.exists_cons_of_ne_nil h1
  obtain ⟨a2, l2, rfl⟩ := List.exists_cons_of_ne_nil h2
  refine ⟨?_, ?_, ?_, ?_⟩ <;>
    simp [decorate, initialWorld, clearCallCount, deltaDecorations, mapGet, mapSet,
      mapDelete, mergeRanges, toDecoration, notifyClose, deleteDecorations]

/-- C6 witness at a concrete document, theme, and pair of updates. -/
theorem lifecycle_exactly_once_witness :
    clearCallCount (decorate (fun _ => 0) (fun _ => "c")
      (decorate (fun _ => 0) (fun _ => "c") (initialWorld "a" 10) "a"
        [⟨⟨2, 0⟩, ⟨2, 5⟩, ["keyword"]⟩])
      "a" [⟨⟨2, 0⟩, ⟨2, 3⟩, ["string"]⟩]) "a" = 0 ∧
    clearCallCount (notifyClose (decorate (fun _ => 0) (fun _ => "c")
      (decorate (fun _ => 0) (fun _ => "c") (initialWorld "a" 10) "a"
        [⟨⟨2, 0⟩, ⟨2, 5⟩, ["keyword"]⟩])
      "a" [⟨⟨2, 0⟩, ⟨2, 3⟩, ["string"]⟩]) "a") "a" = 1 ∧
    mapGet (notifyClose (decorate (fun _ => 0) (fun _ => "c")
      (decorate (fun _ => 0) (fun _ => "c") (initialWorld "a" 10) "a"
        [⟨⟨2, 0⟩, ⟨2, 5⟩, ["keyword"]⟩])
      "a" [⟨⟨2, 0⟩, ⟨2, 3⟩, ["string"]⟩]) "a").decorations "a" = none ∧
    notifyClose (notifyClose (decorate (fun _ => 0) (fun _ => "c")
      (decorate (fun _ => 0) (fun _ => "c") (initialWorld "a" 10) "a"
        [⟨⟨2, 0⟩, ⟨2, 5⟩, ["keyword"]⟩])
      "a" [⟨⟨2, 0⟩, ⟨2, 3⟩, ["string"]⟩]) "a") "a" =
      notifyClose (decorate (fun _ => 0) (fun _ => "c")
        (decorate (fun _ => 0) (fun _ => "c") (initialWorld "a" 10) "a"
          [⟨⟨2, 0⟩, ⟨2, 5⟩, ["keyword"]⟩])
        "a" [⟨⟨2, 0⟩, ⟨2, 3⟩, ["string"]⟩]) "a" :=
  lifecycle_exactly_once (fun _ => 0) (fun _ => "c") "a" 10
    [⟨⟨2, 0⟩, ⟨2, 5⟩, ["keyword"]⟩] [⟨⟨2, 0⟩, ⟨2, 3⟩, ["string"]⟩]
    (by decide) (by decide)
